import Mathlib

namespace Zustand

/-- JS values stored in a state mapping: numbers, strings, and opaque
function references (closures, compared by identity in JS). -/
inductive Value where
  | num (n : Int)
  | str (s : String)
  | fnref (id : Nat)
deriving DecidableEq

/-- A JS object used as store state: an insertion-ordered list of
key/value pairs (unique keys by construction). -/
abbrev StateMap := List (String × Value)

/-- Property read `m[k]`: the first binding of key `k`. -/
def lookupKey (m : StateMap) (k : String) : Option Value :=
  (m.find? (fun p => p.1 == k)).map (fun p => p.2)

/-- `k in m`. -/
def hasKey (m : StateMap) (k : String) : Bool :=
  m.any (fun p => p.1 == k)

/-- Reading `m[k]` as a number (`undefined`/non-number gives `none`). -/
def lookupNum (m : StateMap) (k : String) : Option Int :=
  match lookupKey m k with
  | some (Value.num n) => some n
  | _ => none

/-- One key-copy step of `Object.assign`: setting key `k` to `v` updates
an existing binding in place (keeping its position), else appends. -/
def assignOne (m : StateMap) (k : String) (v : Value) : StateMap :=
  if hasKey m k then m.map (fun p => if p.1 == k then (k, v) else p)
  else m ++ [(k, v)]

/-- `Object.assign({}, s, d)`: shallow merge of `d` onto `s`; `d`'s keys
win, keys absent from `d` are retained unchanged. -/
def objAssign (s d : StateMap) : StateMap :=
  d.foldl (fun m p => assignOne m p.1 p.2) s

/-- `PartialState<T> = Partial<T> | ((state: T) => Partial<T>)`.
A function variant that returns `none` models the function throwing. -/
inductive PartialState where
  | obj (delta : StateMap)
  | fn (f : StateMap → Option StateMap)

/-- `typeof partialState === 'function' ? partialState(state) : partialState`. -/
def resolveDelta (p : PartialState) (s : StateMap) : Option StateMap :=
  match p with
  | PartialState.obj d => some d
  | PartialState.fn f => f s

/-- A state object: heap reference identity plus its contents. -/
structure StObj where
  ref : Nat
  val : StateMap
deriving DecidableEq

/-- Commands a listener body may run re-entrantly against the store:
`set(p)` = `setState(p)`, `sub l` = `subscribe(listener l)`,
`unsub l` = invoke the unsubscribe closure returned for listener `l`,
`destroyS` = `destroy()`. -/
inductive Cmd where
  | set (p : PartialState)
  | sub (lid : Nat)
  | unsub (lid : Nat)
  | destroyS

/-- Listener environment: listener `lid`, invoked with the state it was
passed, runs a finite list of commands. Listeners exist up front and are
identified by reference (`lid`); `subscribe` adds an id to the registry. -/
abbrev Env := Nat → StateMap → List Cmd

/-- The closed-over mutable data of one store created by `create`:
`state?` is the `let state` variable (`none` while in its temporal dead
zone, i.e. during the initializer); `nextRef`/`heap` model object
allocation so reference identity of state objects is observable;
`entries` is the ECMA `Set` entry list in insertion order, where `none`
is a tombstone left by `delete`/`clear`; `log` is a ghost record of
listener invocations `(lid, observed state)` in temporal order. -/
structure Store where
  state? : Option StObj
  nextRef : Nat
  heap : List (Nat × StateMap)
  entries : List (Option Nat)
  log : List (Nat × StateMap)
deriving DecidableEq

/-- A JS exception: `refError` = TDZ ReferenceError reading `state`
before initialization, `userError` = exception thrown by a function
partial. -/
inductive JsError where
  | refError
  | userError
deriving DecidableEq

/-- Outcome of running store code: normal return, a propagating JS
exception (with the store as left at the throw), or fuel exhaustion
(models divergence of unboundedly re-entrant listeners). -/
inductive Res where
  | ok (σ : Store)
  | err (e : JsError) (σ : Store)
  | out
deriving DecidableEq

/-- Allocate a fresh state object holding `v` and point `state` at it. -/
def alloc (σ : Store) (v : StateMap) : Store :=
  { σ with
    state? := some ⟨σ.nextRef, v⟩
    nextRef := σ.nextRef + 1
    heap := σ.heap ++ [(σ.nextRef, v)] }

/-- `listeners.add(listener)`: appends a new entry unless the value is
already present (ECMA Set semantics: re-adding a member is a no-op). -/
def subscribe (σ : Store) (lid : Nat) : Store :=
  if some lid ∈ σ.entries then σ
  else { σ with entries := σ.entries ++ [some lid] }

/-- The unsubscribe closure: `listeners.delete(listener)` tombstones the
entry holding the value (deleting a non-member is a no-op). -/
def unsubscribe (σ : Store) (lid : Nat) : Store :=
  { σ with entries := σ.entries.map (fun e => if e = some lid then none else e) }

/-- `destroy()`: `listeners.clear()` (tombstones every entry, ECMA
semantics) then `state = {}` (a freshly allocated empty object). -/
def destroy (σ : Store) : Store :=
  alloc { σ with entries := σ.entries.map (fun _ => none) } []

/-- `getState()`: reads the `state` variable (TDZ throw when still
uninitialized, i.e. during the initializer). -/
def getState (σ : Store) : Except JsError StObj :=
  match σ.state? with
  | none => Except.error JsError.refError
  | some st => Except.ok st

/-- The pending activity of the interpreter: a `setState(p)` call, the
`forEach` notification loop at entry index `i`, the invocation of one
listener, or a listener body's remaining commands. -/
inductive Task where
  | setS (p : PartialState)
  | notifyT (i : Nat)
  | invokeT (lid : Nat)
  | cmds (cs : List Cmd)

/-- Fueled interpreter for the store's re-entrant code.
`setS p` is `setState`: read `state` (TDZ check), resolve the partial
(a throwing function partial propagates with the state unchanged),
assign the fresh merged object, then run `listeners.forEach`.
`notifyT i` is the live `forEach` walk: it re-reads the entry list every
step, skips tombstones, and visits entries appended during the pass.
`invokeT lid` is `listener(state)`: the listener observes the current
state at invocation time (logged), and its body commands then run.
Every recursive call consumes one unit of fuel. -/
def exec (env : Env) : Nat → Store → Task → Res
  | 0, _, _ => Res.out
  | fuel + 1, σ, Task.setS p =>
    match σ.state? with
    | none => Res.err JsError.refError σ
    | some st =>
      match resolveDelta p st.val with
      | none => Res.err JsError.userError σ
      | some d => exec env fuel (alloc σ (objAssign st.val d)) (Task.notifyT 0)
  | fuel + 1, σ, Task.notifyT i =>
    match σ.entries[i]? with
    | none => Res.ok σ
    | some none => exec env fuel σ (Task.notifyT (i + 1))
    | some (some lid) =>
      match exec env fuel σ (Task.invokeT lid) with
      | Res.ok σ' => exec env fuel σ' (Task.notifyT (i + 1))
      | r => r
  | fuel + 1, σ, Task.invokeT lid =>
    match σ.state? with
    | none => Res.err JsError.refError σ
    | some st =>
      exec env fuel { σ with log := σ.log ++ [(lid, st.val)] } (Task.cmds (env lid st.val))
  | _ + 1, σ, Task.cmds [] => Res.ok σ
  | fuel + 1, σ, Task.cmds (c :: cs) =>
    match
      (match c with
       | Cmd.set p => exec env fuel σ (Task.setS p)
       | Cmd.sub lid => Res.ok (subscribe σ lid)
       | Cmd.unsub lid => Res.ok (unsubscribe σ lid)
       | Cmd.destroyS => Res.ok (destroy σ)) with
    | Res.ok σ' => exec env fuel σ' (Task.cmds cs)
    | r => r

/-- `setState(partialState)` as the API entry point. -/
def setState (env : Env) (fuel : Nat) (σ : Store) (p : PartialState) : Res :=
  exec env fuel σ (Task.setS p)

/-- A caller making a sequence of top-level `setState` calls. -/
def runSets (env : Env) (fuel : Nat) : Store → List PartialState → Res
  | σ, [] => Res.ok σ
  | σ, p :: ps =>
    match setState env fuel σ p with
    | Res.ok σ' => runSets env fuel σ' ps
    | r => r

/-- The store as it exists while the initializer `createState(set, get)`
is still running: `let state` (line 100) is in its temporal dead zone. -/
def initStore : Store :=
  { state? := none, nextRef := 0, heap := [], entries := [], log := [] }

/-- The store right after `create` returns, when the initializer
returned the object `m`: `state` holds the first allocated object. -/
def createRun (m : StateMap) : Store :=
  { state? := some ⟨0, m⟩, nextRef := 1, heap := [(0, m)], entries := [], log := [] }

/-- The environment of listeners none of which runs any command
(pure observers). -/
def envNil : Env := fun _ _ => []

/-- Modelled from the spec: the file `src/shallowEqual.ts` is imported by
the source but is not present under `src/`; per the spec it is the
injected predicate `equal(a, b) -> bool` comparing two mappings' own
keys/values one level deep, without recursing into nested structures. -/
def shallowEqual (a b : StateMap) : Bool :=
  a.all (fun p => lookupKey b p.1 == some p.2) &&
    b.all (fun p => lookupKey a p.1 == some p.2)

/-- The per-mount bookkeeping of `useStore` that its store listener
reads: `selectRef` is `selectStateRef.current` (the most recently used
selector) and `sliceRef` is `stateSliceRef.current` (the last-rendered
slice). -/
structure HookInst where
  selectRef : StateMap → StateMap
  sliceRef : StateMap

/-- The listener `useStore` subscribes on mount (source lines 88-94):
apply the most recently used selector to the current state, shallow
compare with the last-rendered slice, and dispatch the new slice
(`some`) only when different, else do nothing (`none`). -/
def hookListener (h : HookInst) (state : StateMap) : Option StateMap :=
  let selectedSlice := h.selectRef state
  if shallowEqual h.sliceRef selectedSlice then none else some selectedSlice

/-- The selector `s => ({count: s.count})`: returns a freshly allocated
one-key object on every call. -/
def countSelector (s : StateMap) : StateMap :=
  match lookupKey s "count" with
  | some v => [("count", v)]
  | none => []

/-- The initializer's returned object in the counter scenario:
`{count: 0, inc: () => set(s => ({count: s.count + 1}))}`. -/
def counterInit : StateMap :=
  [("count", Value.num 0), ("inc", Value.fnref 0)]

/-- The updater `s => ({count: s.count + 1})` closed over by `inc`. -/
def incFn : StateMap → Option StateMap :=
  fun s =>
    match lookupNum s "count" with
    | some n => some [("count", Value.num (n + 1))]
    | none => none

/-- Calling the produced `inc`: its body is `set(s => ({count: s.count + 1}))`. -/
def incCall (fuel : Nat) (σ : Store) : Res :=
  setState envNil fuel σ (PartialState.fn incFn)

/-- Re-entrancy scenario: listener 1, on seeing `flag = 0`, performs the
nested call `setState({flag: 1})`; listener 2 does nothing. -/
def envNested : Env := fun lid s =>
  if lid == 1 then
    (if lookupNum s "flag" == some 0 then
      [Cmd.set (PartialState.obj [("flag", Value.num 1)])]
     else [])
  else []

/-- Store with listeners 1 and 2 subscribed (in that order) on empty state. -/
def storeNested : Store :=
  { state? := some ⟨0, []⟩, nextRef := 1, heap := [(0, [])],
    entries := [some 1, some 2], log := [] }

/-- The re-entrancy run: a top-level `setState({flag: 0})` whose pass is
interrupted by listener 1's nested `setState({flag: 1})`. -/
def runNested : Res :=
  setState envNested 30 storeNested (PartialState.obj [("flag", Value.num 0)])

/-- Remove/re-add scenario: listener 1 unsubscribes listener 2 and then
re-subscribes it; listener 2 does nothing. -/
def envReAdd : Env := fun lid _ =>
  if lid == 1 then [Cmd.unsub 2, Cmd.sub 2] else []

/-- Store with listeners 2 then 1 subscribed, so 2 is visited first. -/
def storeReAdd : Store :=
  { state? := some ⟨0, []⟩, nextRef := 1, heap := [(0, [])],
    entries := [some 2, some 1], log := [] }

/-- The remove/re-add run: one top-level `setState({x: 0})`. -/
def runReAdd : Res :=
  setState envReAdd 30 storeReAdd (PartialState.obj [("x", Value.num 0)])

/-- Mid-pass addition scenario: listener 1 subscribes listener 3. -/
def envAddMid : Env := fun lid _ =>
  if lid == 1 then [Cmd.sub 3] else []

/-- Store with only listener 1 subscribed. -/
def storeAddMid : Store :=
  { state? := some ⟨0, []⟩, nextRef := 1, heap := [(0, [])],
    entries := [some 1], log := [] }

/-- The mid-pass addition run: one top-level `setState({x: 0})`. -/
def runAddMid : Res :=
  setState envAddMid 30 storeAddMid (PartialState.obj [("x", Value.num 0)])

/-- Mid-pass removal scenario: listener 1 unsubscribes listener 2
before listener 2's turn. -/
def envRemoveMid : Env := fun lid _ =>
  if lid == 1 then [Cmd.unsub 2] else []

/-- Store with listeners 1 then 2 subscribed, so 1 is visited first. -/
def storeRemoveMid : Store :=
  { state? := some ⟨0, []⟩, nextRef := 1, heap := [(0, [])],
    entries := [some 1, some 2], log := [] }

/-- The mid-pass removal run: one top-level `setState({x: 0})`. -/
def runRemoveMid : Res :=
  setState envRemoveMid 30 storeRemoveMid (PartialState.obj [("x", Value.num 0)])

/-- Number of invocations of listener `lid` recorded in a log. -/
def countLid (lg : List (Nat × StateMap)) (lid : Nat) : Nat :=
  lg.countP (fun x => x.1 == lid)

/-- The listener ids in live (non-tombstoned) entries. -/
def activeIds (es : List (Option Nat)) : List Nat :=
  es.filterMap id

/-- Three calls of the produced `inc` on the freshly created counter
store, as one sequence of top-level `setState` calls. -/
def counterAfterThree : Res :=
  runSets envNil 10 (createRun counterInit)
    [PartialState.fn incFn, PartialState.fn incFn, PartialState.fn incFn]

/-- Reference semantics of a `setState` sequence, written from the spec
sentence: the left-to-right shallow merge of all applied partials onto
the initial state, a function partial being applied to the state current
at its call. `none` when some function partial throws. -/
def resolveFold (s : StateMap) : List PartialState → Option StateMap
  | [] => some s
  | p :: ps =>
    match resolveDelta p s with
    | none => none
    | some d => resolveFold (objAssign s d) ps

/-- Dereference a state-object reference in the allocation record. -/
def heapLookup (h : List (Nat × StateMap)) (r : Nat) : Option StateMap :=
  (h.find? (fun p => p.1 == r)).map (fun p => p.2)

/-- Relation between a store and any store a run can leave behind:
allocations only extend the heap, the allocation counter never
decreases, an initialized state stays initialized, and any lower bound
below the counter that holds for the current state object's reference
keeps holding. -/
def storeStep (σ σ' : Store) : Prop :=
  (∃ Δ, σ'.heap = σ.heap ++ Δ) ∧ σ.nextRef ≤ σ'.nextRef ∧
    (σ.state?.isSome → σ'.state?.isSome) ∧
    ∀ B, B ≤ σ.nextRef → (∀ st, σ.state? = some st → B ≤ st.ref) →
      ∀ st, σ'.state? = some st → B ≤ st.ref

/-- `storeStep` transported to a run outcome. -/
def resStep (σ : Store) : Res → Prop
  | Res.ok σ' => storeStep σ σ'
  | Res.err _ σ' => storeStep σ σ'
  | Res.out => True

/-- A command that cannot throw: its partial is an object or a total
function. -/
def SafeCmd : Cmd → Prop
  | Cmd.set (PartialState.fn f) => ∀ s, (f s).isSome
  | _ => True

/-- An environment whose listener bodies never throw. -/
def SafeEnv (env : Env) : Prop := ∀ l s c, c ∈ env l s → SafeCmd c

/-- Throw-freedom side condition per pending task. -/
def taskSafe : Task → Prop
  | Task.setS p => SafeCmd (Cmd.set p)
  | Task.cmds cs => ∀ c ∈ cs, SafeCmd c
  | _ => True

/-- No listener body ever re-subscribes listener `lid`. -/
def noSubOf (lid : Nat) (env : Env) : Prop := ∀ l s, Cmd.sub lid ∉ env l s

/-- Side condition for tasks in a run that can no longer reach `lid`:
`lid` itself is not the listener being invoked and is not subscribed by
pending commands. -/
def taskNoSub (lid : Nat) : Task → Prop
  | Task.invokeT l => l ≠ lid
  | Task.cmds cs => Cmd.sub lid ∉ cs
  | _ => True

/-- Outcome predicate: listener `lid` stayed unregistered and received
no new invocations. -/
def resNoLid (lid : Nat) (σ : Store) : Res → Prop
  | Res.ok σ' => some lid ∉ σ'.entries ∧ countLid σ'.log lid = countLid σ.log lid
  | Res.err _ σ' => some lid ∉ σ'.entries ∧ countLid σ'.log lid = countLid σ.log lid
  | Res.out => True

/-- Listener `lid` occupies exactly the registry slot `j`. -/
def uniqueAt (es : List (Option Nat)) (j lid : Nat) : Prop :=
  es[j]? = some (some lid) ∧
    ∀ k, k < es.length → k ≠ j → es[k]? ≠ some (some lid)

/-- A registry-only command that leaves listener `lid` alone: a
subscription of anyone, or an unsubscription of someone else. -/
def RegCmdFor (lid : Nat) : Cmd → Prop
  | Cmd.sub _ => True
  | Cmd.unsub k => k ≠ lid
  | _ => False

/-- An environment whose listener bodies only perform registry edits
that leave listener `lid` alone. -/
def RegEnvFor (lid : Nat) (env : Env) : Prop := ∀ l s c, c ∈ env l s → RegCmdFor lid c

/-- One-step unfolding of a `setState` call. -/
theorem exec_set_step (env : Env) (fuel : Nat) (σ : Store) (p : PartialState) :
    exec env (fuel + 1) σ (Task.setS p)
      = match σ.state? with
        | none => Res.err JsError.refError σ
        | some st =>
          match resolveDelta p st.val with
          | none => Res.err JsError.userError σ
          | some d => exec env fuel (alloc σ (objAssign st.val d)) (Task.notifyT 0) := rfl

/-- One-step unfolding of the live `forEach` walk. -/
theorem exec_notify_step (env : Env) (fuel : Nat) (σ : Store) (i : Nat) :
    exec env (fuel + 1) σ (Task.notifyT i)
      = match σ.entries[i]? with
        | none => Res.ok σ
        | some none => exec env fuel σ (Task.notifyT (i + 1))
        | some (some lid) =>
          match exec env fuel σ (Task.invokeT lid) with
          | Res.ok σ' => exec env fuel σ' (Task.notifyT (i + 1))
          | r => r := rfl

/-- One-step unfolding of a listener invocation. -/
theorem exec_invoke_step (env : Env) (fuel : Nat) (σ : Store) (lid : Nat) :
    exec env (fuel + 1) σ (Task.invokeT lid)
      = match σ.state? with
        | none => Res.err JsError.refError σ
        | some st =>
          exec env fuel { σ with log := σ.log ++ [(lid, st.val)] }
            (Task.cmds (env lid st.val)) := rfl

/-- A finished listener body returns normally. -/
theorem exec_cmds_nil (env : Env) (fuel : Nat) (σ : Store) :
    exec env (fuel + 1) σ (Task.cmds []) = Res.ok σ := rfl

/-- One-step unfolding of a listener body's next command. -/
theorem exec_cmds_cons (env : Env) (fuel : Nat) (σ : Store) (c : Cmd) (cs : List Cmd) :
    exec env (fuel + 1) σ (Task.cmds (c :: cs))
      = match
          (match c with
           | Cmd.set p => exec env fuel σ (Task.setS p)
           | Cmd.sub lid => Res.ok (subscribe σ lid)
           | Cmd.unsub lid => Res.ok (unsubscribe σ lid)
           | Cmd.destroyS => Res.ok (destroy σ)) with
        | Res.ok σ' => exec env fuel σ' (Task.cmds cs)
        | r => r := rfl

/-- Exhausted fuel. -/
theorem exec_zero (env : Env) (σ : Store) (t : Task) :
    exec env 0 σ t = Res.out := rfl

/-- Membership in `activeIds` is membership of the live entry. -/
theorem mem_activeIds {es : List (Option Nat)} {lid : Nat} :
    lid ∈ activeIds es ↔ some lid ∈ es := by
  simp [activeIds, List.mem_filterMap]

/-- Subscribing the same listener reference twice collapses to one
registration (ECMA `Set.add` of a member is a no-op). -/
theorem subscribe_idem (σ : Store) (lid : Nat) :
    subscribe (subscribe σ lid) lid = subscribe σ lid := by
  by_cases h : some lid ∈ σ.entries
  · simp [subscribe, h]
  · simp [subscribe, h]

/-- After `unsubscribe`, the listener is no longer registered. -/
theorem unsubscribe_not_mem (σ : Store) (lid : Nat) :
    some lid ∉ (unsubscribe σ lid).entries := by
  intro h
  simp only [unsubscribe, List.mem_map] at h
  obtain ⟨e, -, he⟩ := h
  by_cases hc : e = some lid <;> simp [hc] at he

/-- `unsubscribe` removes only the given listener: every other
listener's registration is untouched. -/
theorem unsubscribe_mem_other (σ : Store) (lid l : Nat) (hne : l ≠ lid) :
    some l ∈ (unsubscribe σ lid).entries ↔ some l ∈ σ.entries := by
  simp only [unsubscribe, List.mem_map]
  constructor
  · rintro ⟨e, he, hfe⟩
    by_cases hc : e = some lid <;> simp [hc] at hfe
    · exact hfe ▸ he
  · intro h
    refine ⟨some l, h, ?_⟩
    simp [Option.some_inj, hne]

/-- Calling the returned unsubscribe a second time is a no-op. -/
theorem unsubscribe_idem (σ : Store) (lid : Nat) :
    unsubscribe (unsubscribe σ lid) lid = unsubscribe σ lid := by
  simp only [unsubscribe, List.map_map]
  congr 1
  apply List.map_congr_left
  intro e _
  by_cases hc : e = some lid <;> simp [hc]

/-- With pure-observer listeners the `forEach` walk from entry index `i`
appends one log record per live entry from `i` on (each carrying the
state current throughout the pass) and changes nothing else. -/
theorem notify_noop (env : Env) (henv : ∀ l s, env l s = []) :
    ∀ fuel σ st i, σ.state? = some st → σ.entries.length + 2 ≤ i + fuel → 1 ≤ fuel →
      exec env fuel σ (Task.notifyT i)
        = Res.ok { σ with
            log := σ.log ++ (activeIds (σ.entries.drop i)).map (fun l => (l, st.val)) } := by
  intro fuel
  induction fuel with
  | zero => intro σ st i _ _ hf; omega
  | succ fuel ih =>
    intro σ st i hst hlen _
    cases hi : σ.entries[i]? with
    | none =>
      have hle : σ.entries.length ≤ i := List.getElem?_eq_none_iff.mp hi
      have hdrop : σ.entries.drop i = [] := List.drop_eq_nil_of_le hle
      simp [exec, hi, hdrop, activeIds]
    | some e =>
      have hlt : i < σ.entries.length := by
        by_contra hge
        rw [List.getElem?_eq_none (by omega)] at hi
        exact Option.noConfusion hi
      have hdrop : σ.entries.drop i = e :: σ.entries.drop (i + 1) := by
        rw [List.drop_eq_getElem_cons hlt]
        have : σ.entries[i] = e := by
          have := List.getElem?_eq_some_iff.mp hi
          exact this.choose_spec
        rw [this]
      cases e with
      | none =>
        have hrec := ih σ st (i + 1) hst (by omega) (by omega)
        simp only [exec, hi]
        rw [hrec, hdrop]
        simp [activeIds]
      | some lid =>
        obtain ⟨f, rfl⟩ : ∃ f, fuel = f + 2 := ⟨fuel - 2, by omega⟩
        have hinv : exec env (f + 2) σ (Task.invokeT lid)
            = Res.ok { σ with log := σ.log ++ [(lid, st.val)] } := by
          rw [exec_invoke_step, hst]
          dsimp only
          rw [henv, exec_cmds_nil]
        have hrec := ih { σ with log := σ.log ++ [(lid, st.val)] } st (i + 1)
          hst (by simpa using by omega) (by omega)
        rw [exec_notify_step, hi]
        dsimp only
        rw [hinv]
        dsimp only
        rw [hrec, hdrop]
        simp [activeIds]

/-- A pass over a registry containing only tombstones invokes nobody
and returns the store unchanged, for any environment. -/
theorem notify_tombstones (env : Env) :
    ∀ fuel σ i, (∀ e ∈ σ.entries, e = none) →
      σ.entries.length + 1 ≤ i + fuel → 1 ≤ fuel →
      exec env fuel σ (Task.notifyT i) = Res.ok σ := by
  intro fuel
  induction fuel with
  | zero => intro σ i _ _ hf; omega
  | succ fuel ih =>
    intro σ i hall hlen _
    cases hi : σ.entries[i]? with
    | none => simp [exec, hi]
    | some e =>
      have he : e = none := hall e (List.getElem?_mem hi)
      subst he
      have hlt : i < σ.entries.length := by
        by_contra hge
        rw [List.getElem?_eq_none (by omega)] at hi
        exact Option.noConfusion hi
      simp only [exec, hi]
      exact ih σ (i + 1) hall (by omega) (by omega)

/-- A `setState` call whose listeners are pure observers: the state is
replaced by the freshly allocated shallow merge and every live listener
is invoked once with it, in registry order. -/
theorem setState_noop (env : Env) (henv : ∀ l s, env l s = []) (fuel : Nat) (σ : Store)
    (st : StObj) (p : PartialState) (d : StateMap)
    (hst : σ.state? = some st) (hd : resolveDelta p st.val = some d)
    (hfuel : σ.entries.length + 3 ≤ fuel) :
    setState env fuel σ p
      = Res.ok { alloc σ (objAssign st.val d) with
          log := σ.log ++ (activeIds σ.entries).map (fun l => (l, objAssign st.val d)) } := by
  obtain ⟨f, rfl⟩ : ∃ f, fuel = f + 1 := ⟨fuel - 1, by omega⟩
  have h1 := notify_noop env henv f (alloc σ (objAssign st.val d))
    ⟨σ.nextRef, objAssign st.val d⟩ 0 rfl (by simp [alloc]; omega) (by omega)
  rw [setState, exec_set_step, hst]
  dsimp only
  rw [hd]
  dsimp only
  rw [h1]
  simp [alloc]

/-- Claim C1: for every initial state and every finite sequence of
`setState` calls (with pure-observer listeners), `getState()` afterwards
is the left-to-right shallow merge of the applied partials onto the
initial state, a function partial being applied to the state current at
its call; and in the concrete counter scenario, calling the produced
`inc` three times yields `getState().count === 3`. -/
theorem C1_sequence_merge_and_counter (env : Env) (henv : ∀ l s, env l s = []) :
    (∀ ps σ st m fuel, σ.state? = some st → resolveFold st.val ps = some m →
        σ.entries.length + 3 ≤ fuel →
        ∃ σ' st', runSets env fuel σ ps = Res.ok σ' ∧ σ'.state? = some st' ∧
          st'.val = m ∧ σ'.entries = σ.entries) ∧
    counterAfterThree = Res.ok
      { state? := some ⟨3, [("count", Value.num 3), ("inc", Value.fnref 0)]⟩,
        nextRef := 4,
        heap := [(0, [("count", Value.num 0), ("inc", Value.fnref 0)]),
                 (1, [("count", Value.num 1), ("inc", Value.fnref 0)]),
                 (2, [("count", Value.num 2), ("inc", Value.fnref 0)]),
                 (3, [("count", Value.num 3), ("inc", Value.fnref 0)])],
        entries := [], log := [] } ∧
    getState
        { state? := some ⟨3, [("count", Value.num 3), ("inc", Value.fnref 0)]⟩,
          nextRef := 4,
          heap := [(0, [("count", Value.num 0), ("inc", Value.fnref 0)]),
                   (1, [("count", Value.num 1), ("inc", Value.fnref 0)]),
                   (2, [("count", Value.num 2), ("inc", Value.fnref 0)]),
                   (3, [("count", Value.num 3), ("inc", Value.fnref 0)])],
          entries := [], log := [] }
      = Except.ok ⟨3, [("count", Value.num 3), ("inc", Value.fnref 0)]⟩ ∧
    lookupNum [("count", Value.num 3), ("inc", Value.fnref 0)] "count" = some 3 := by
  refine ⟨?_, by decide, rfl, by decide⟩
  intro ps
  induction ps with
  | nil =>
    intro σ st m fuel hst hm _
    refine ⟨σ, st, rfl, hst, ?_, rfl⟩
    simpa [resolveFold] using hm
  | cons p ps ih =>
    intro σ st m fuel hst hm hfuel
    cases hd : resolveDelta p st.val with
    | none => rw [resolveFold, hd] at hm; exact absurd hm (by simp)
    | some d =>
      rw [resolveFold, hd] at hm
      have hset := setState_noop env henv fuel σ st p d hst hd hfuel
      have hnext := ih
        { alloc σ (objAssign st.val d) with
          log := σ.log ++ (activeIds σ.entries).map (fun l => (l, objAssign st.val d)) }
        ⟨σ.nextRef, objAssign st.val d⟩ m fuel (by simp [alloc]) (by simpa using hm)
        (by simp [alloc]; omega)
      obtain ⟨σ', st', hrun, hst', hval, hent⟩ := hnext
      refine ⟨σ', st', ?_, hst', hval, ?_⟩
      · rw [runSets, hset]
        exact hrun
      · rw [hent]; simp [alloc]

/-- Witness for C1 at a concrete environment, store and call sequence. -/
theorem C1_sequence_merge_and_counter_witness :
    ∃ σ' st',
      runSets envNil 4 (createRun [("a", Value.num 1)])
          [PartialState.obj [("b", Value.num 2)]]
        = Res.ok σ' ∧ σ'.state? = some st' ∧
        st'.val = [("a", Value.num 1), ("b", Value.num 2)] ∧
        σ'.entries = (createRun [("a", Value.num 1)]).entries :=
  (C1_sequence_merge_and_counter envNil (fun _ _ => rfl)).1
    [PartialState.obj [("b", Value.num 2)]] (createRun [("a", Value.num 1)])
    ⟨0, [("a", Value.num 1)]⟩ [("a", Value.num 1), ("b", Value.num 2)] 4
    rfl (by decide) (by decide)

/-- Claim C2 (amended): every listener subscribed at the moment a
`setState` call begins is, when no listener issues re-entrant commands
during the pass, invoked exactly once by that call, synchronously,
observing exactly the state resulting from that call. -/
theorem C2_amended_exactly_once_post_state (env : Env) (henv : ∀ l s, env l s = [])
    (σ : Store) (st : StObj) (p : PartialState) (d : StateMap) (fuel : Nat)
    (hst : σ.state? = some st) (hd : resolveDelta p st.val = some d)
    (hfuel : σ.entries.length + 3 ≤ fuel) (hnd : (activeIds σ.entries).Nodup) :
    ∃ σ', setState env fuel σ p = Res.ok σ' ∧
      σ'.state? = some ⟨σ.nextRef, objAssign st.val d⟩ ∧
      σ'.log = σ.log ++ (activeIds σ.entries).map (fun l => (l, objAssign st.val d)) ∧
      ∀ lid, lid ∈ activeIds σ.entries →
        countLid σ'.log lid = countLid σ.log lid + 1 := by
  refine ⟨_, setState_noop env henv fuel σ st p d hst hd hfuel,
    by simp [alloc], by simp [alloc], ?_⟩
  intro lid hmem
  simp only [alloc, countLid, List.countP_append, List.countP_map]
  have : ((activeIds σ.entries).countP
      ((fun x => x.1 == lid) ∘ fun l => (l, objAssign st.val d)))
      = (activeIds σ.entries).count lid := by
    rw [List.count_eq_countP]
    rfl
  rw [this, List.count_eq_one_of_mem hnd hmem]

/-- Witness for the amended C2 at a concrete store with two listeners. -/
theorem C2_amended_exactly_once_post_state_witness :
    ∃ σ',
      setState envNil 6
          { state? := some ⟨0, []⟩, nextRef := 1, heap := [(0, [])],
            entries := [some 1, some 2], log := [] }
          (PartialState.obj [("k", Value.num 7)])
        = Res.ok σ' ∧
      σ'.state? = some ⟨1, [("k", Value.num 7)]⟩ ∧
      σ'.log = [] ++ (activeIds [some 1, some 2]).map
          (fun l => (l, objAssign [] [("k", Value.num 7)])) ∧
      ∀ lid, lid ∈ activeIds [some 1, some 2] →
        countLid σ'.log lid = countLid ([] : List (Nat × StateMap)) lid + 1 :=
  C2_amended_exactly_once_post_state envNil (fun _ _ => rfl)
    { state? := some ⟨0, []⟩, nextRef := 1, heap := [(0, [])],
      entries := [some 1, some 2], log := [] }
    ⟨0, []⟩ (PartialState.obj [("k", Value.num 7)]) [("k", Value.num 7)] 6
    rfl rfl (by decide) (by decide)

/-- Claim C8: subscribing the identical callback reference twice
collapses to a single registration: the double subscription equals the
single one, one `setState` call then invokes that callback exactly once,
and a single unsubscribe suffices to remove it. -/
theorem C8_duplicate_subscribe_collapses (env : Env) (henv : ∀ l s, env l s = [])
    (σ : Store) (st : StObj) (lid : Nat) (d : StateMap) (fuel : Nat)
    (hst : σ.state? = some st) (hnew : some lid ∉ σ.entries)
    (hfuel : σ.entries.length + 4 ≤ fuel) :
    subscribe (subscribe σ lid) lid = subscribe σ lid ∧
    (∃ σ', setState env fuel (subscribe (subscribe σ lid) lid) (PartialState.obj d)
        = Res.ok σ' ∧
      countLid σ'.log lid = countLid σ.log lid + 1) ∧
    some lid ∉ (unsubscribe (subscribe (subscribe σ lid) lid) lid).entries := by
  refine ⟨subscribe_idem σ lid, ?_, unsubscribe_not_mem _ lid⟩
  rw [subscribe_idem σ lid]
  have hsub : (subscribe σ lid).entries = σ.entries ++ [some lid] := by
    simp [subscribe, hnew]
  have hset := setState_noop env henv fuel (subscribe σ lid) st (PartialState.obj d) d
    (by simp [subscribe, hnew, hst]) rfl (by rw [hsub]; simp; omega)
  refine ⟨_, hset, ?_⟩
  have hlog : (subscribe σ lid).log = σ.log := by simp [subscribe, hnew]
  simp only [alloc, hlog, countLid, List.countP_append, List.countP_map, hsub]
  have h1 : ((activeIds (σ.entries ++ [some lid])).countP
      ((fun x => x.1 == lid) ∘ fun l => (l, objAssign st.val d)))
      = (activeIds (σ.entries ++ [some lid])).count lid := by
    rw [List.count_eq_countP]
    rfl
  rw [h1]
  have h2 : activeIds (σ.entries ++ [some lid]) = activeIds σ.entries ++ [lid] := by
    simp [activeIds]
  rw [h2, List.count_append]
  have h3 : (activeIds σ.entries).count lid = 0 :=
    List.count_eq_zero.mpr (fun hmem => hnew (mem_activeIds.mp hmem))
  simp [h3]

/-- Witness for C8 at a concrete store. -/
theorem C8_duplicate_subscribe_collapses_witness :
    subscribe (subscribe (createRun [("a", Value.num 5)]) 9) 9
        = subscribe (createRun [("a", Value.num 5)]) 9 ∧
    (∃ σ', setState envNil 5 (subscribe (subscribe (createRun [("a", Value.num 5)]) 9) 9)
        (PartialState.obj [("a", Value.num 6)]) = Res.ok σ' ∧
      countLid σ'.log 9 = countLid (createRun [("a", Value.num 5)]).log 9 + 1) ∧
    some 9 ∉ (unsubscribe (subscribe (subscribe (createRun [("a", Value.num 5)]) 9) 9) 9).entries :=
  C8_duplicate_subscribe_collapses envNil (fun _ _ => rfl)
    (createRun [("a", Value.num 5)]) ⟨0, [("a", Value.num 5)]⟩ 9
    [("a", Value.num 6)] 5 rfl (by decide) (by decide)

/-- An unregistered listener stays unregistered under `subscribe` of a
different listener. -/
theorem noLid_subscribe {σ : Store} {lid k : Nat} (hσ : some lid ∉ σ.entries)
    (hne : k ≠ lid) : some lid ∉ (subscribe σ k).entries := by
  by_cases hm : some k ∈ σ.entries
  · simpa [subscribe, hm] using hσ
  · simp [subscribe, hm, hσ]
    exact fun h => hne h.symm

/-- An unregistered listener stays unregistered under any `unsubscribe`. -/
theorem noLid_unsubscribe {σ : Store} {lid : Nat} (k : Nat) (hσ : some lid ∉ σ.entries) :
    some lid ∉ (unsubscribe σ k).entries := by
  intro h
  simp only [unsubscribe, List.mem_map] at h
  obtain ⟨e, he, hfe⟩ := h
  by_cases hc : e = some k <;> simp [hc] at hfe
  exact hσ (hfe ▸ he)

/-- No listener is registered after `destroy` tombstones the registry. -/
theorem noLid_destroy (σ : Store) (lid : Nat) : some lid ∉ (destroy σ).entries := by
  intro h
  simp [destroy, alloc, List.mem_map] at h

/-- Transfer of `resNoLid` along a log-count-preserving intermediate
store. -/
theorem resNoLid_trans {lid : Nat} {σ σ' : Store} {r : Res}
    (h : resNoLid lid σ' r) (hlog : countLid σ'.log lid = countLid σ.log lid) :
    resNoLid lid σ r := by
  cases r with
  | ok σ'' => exact ⟨h.1, h.2.trans hlog⟩
  | err e σ'' => exact ⟨h.1, h.2.trans hlog⟩
  | out => trivial

/-- Once listener `lid` is unregistered, no run in an environment that
never re-subscribes it can register it again or invoke it: its
invocation count in the ghost log never grows, whether the run returns,
throws, or exhausts fuel. -/
theorem noLid_run (env : Env) (lid : Nat) (henv : noSubOf lid env) :
    ∀ fuel σ t, some lid ∉ σ.entries → taskNoSub lid t →
      resNoLid lid σ (exec env fuel σ t) := by
  intro fuel
  induction fuel with
  | zero => intro σ t _ _; rw [exec_zero]; trivial
  | succ fuel ih =>
    intro σ t hσ ht
    cases t with
    | setS p =>
      rw [exec_set_step]
      cases hst : σ.state? with
      | none => exact ⟨hσ, rfl⟩
      | some st =>
        dsimp only
        cases hd : resolveDelta p st.val with
        | none => exact ⟨hσ, rfl⟩
        | some d =>
          dsimp only
          exact resNoLid_trans
            (ih (alloc σ (objAssign st.val d)) (Task.notifyT 0) (by simpa [alloc] using hσ) trivial)
            (by simp [alloc])
    | notifyT i =>
      rw [exec_notify_step]
      cases hi : σ.entries[i]? with
      | none => exact ⟨hσ, rfl⟩
      | some e =>
        cases e with
        | none => exact ih σ (Task.notifyT (i + 1)) hσ trivial
        | some l =>
          have hl : some l ∈ σ.entries := List.getElem?_mem hi
          have hne : l ≠ lid := fun h => hσ (h ▸ hl)
          have hinv := ih σ (Task.invokeT l) hσ hne
          dsimp only
          cases hr : exec env fuel σ (Task.invokeT l) with
          | ok σ1 =>
            rw [hr] at hinv
            exact resNoLid_trans
              (ih σ1 (Task.notifyT (i + 1)) hinv.1 trivial) hinv.2
          | err e σ1 =>
            rw [hr] at hinv
            exact hinv
          | out => trivial
    | invokeT l =>
      rw [exec_invoke_step]
      cases hst : σ.state? with
      | none => exact ⟨hσ, rfl⟩
      | some st =>
        dsimp only
        have hne : l ≠ lid := ht
        refine resNoLid_trans (ih _ (Task.cmds (env l st.val)) ?_ (henv l st.val)) ?_
        · simpa using hσ
        · simp [countLid, hne]
    | cmds cs =>
      cases cs with
      | nil => exact ⟨hσ, rfl⟩
      | cons c cs =>
        have hc : c ≠ Cmd.sub lid := fun h => ht (h ▸ List.mem_cons_self c cs)
        have hcs : Cmd.sub lid ∉ cs := fun h => ht (List.mem_cons_of_mem c h)
        rw [exec_cmds_cons]
        cases c with
        | set p =>
          dsimp only
          have hset := ih σ (Task.setS p) hσ trivial
          cases hr : exec env fuel σ (Task.setS p) with
          | ok σ1 =>
            rw [hr] at hset
            dsimp only
            exact resNoLid_trans (ih σ1 (Task.cmds cs) hset.1 hcs) hset.2
          | err e σ1 =>
            rw [hr] at hset
            exact hset
          | out => trivial
        | sub k =>
          have hk : k ≠ lid := fun h => hc (h ▸ rfl)
          dsimp only
          exact resNoLid_trans
            (ih (subscribe σ k) (Task.cmds cs) (noLid_subscribe hσ hk) hcs)
            (by by_cases hm : some k ∈ σ.entries <;> simp [subscribe, hm])
        | unsub k =>
          dsimp only
          exact resNoLid_trans
            (ih (unsubscribe σ k) (Task.cmds cs) (noLid_unsubscribe k hσ) hcs)
            (by simp [unsubscribe])
        | destroyS =>
          dsimp only
          exact resNoLid_trans
            (ih (destroy σ) (Task.cmds cs) (noLid_destroy σ lid) hcs)
            (by simp [destroy, alloc])

/-- `subscribe` registers the listener. -/
theorem subscribe_mem (σ : Store) (k : Nat) : some k ∈ (subscribe σ k).entries := by
  by_cases hm : some k ∈ σ.entries <;> simp [subscribe, hm]

/-- Claim C5: the function returned by `subscribe` removes exactly that
listener, invoking it twice is a no-op, and once removed (in an
environment that never re-subscribes it) the listener is never invoked
again — its registration stays gone and its invocation count never
grows, for any later `setState`; moreover removal from within another
listener's invocation, before the removed listener's turn, prevents its
invocation in the pass in progress (`runRemoveMid`). -/
theorem C5_unsubscribe_exact_idempotent_final (env : Env) (σ : Store) (lid : Nat)
    (henv : noSubOf lid env) :
    some lid ∉ (unsubscribe σ lid).entries ∧
    (∀ l, l ≠ lid → (some l ∈ (unsubscribe σ lid).entries ↔ some l ∈ σ.entries)) ∧
    unsubscribe (unsubscribe σ lid) lid = unsubscribe σ lid ∧
    (∀ fuel p, resNoLid lid (unsubscribe σ lid)
        (setState env fuel (unsubscribe σ lid) p)) ∧
    runRemoveMid = Res.ok
      { state? := some ⟨1, [("x", Value.num 0)]⟩, nextRef := 2,
        heap := [(0, []), (1, [("x", Value.num 0)])],
        entries := [some 1, none],
        log := [(1, [("x", Value.num 0)])] } ∧
    countLid [(1, [("x", Value.num 0)])] 2 = 0 := by
  refine ⟨unsubscribe_not_mem σ lid, fun l hl => unsubscribe_mem_other σ lid l hl,
    unsubscribe_idem σ lid, ?_, by decide, by decide⟩
  intro fuel p
  exact noLid_run env lid henv fuel (unsubscribe σ lid) (Task.setS p)
    (unsubscribe_not_mem σ lid) trivial

/-- Witness for C5 at a concrete environment, store and listener. -/
theorem C5_unsubscribe_exact_idempotent_final_witness :
    some 3 ∉ (unsubscribe storeNested 3).entries ∧
    (∀ l, l ≠ 3 → (some l ∈ (unsubscribe storeNested 3).entries ↔
        some l ∈ storeNested.entries)) ∧
    unsubscribe (unsubscribe storeNested 3) 3 = unsubscribe storeNested 3 ∧
    (∀ fuel p, resNoLid 3 (unsubscribe storeNested 3)
        (setState envNil fuel (unsubscribe storeNested 3) p)) ∧
    runRemoveMid = Res.ok
      { state? := some ⟨1, [("x", Value.num 0)]⟩, nextRef := 2,
        heap := [(0, []), (1, [("x", Value.num 0)])],
        entries := [some 1, none],
        log := [(1, [("x", Value.num 0)])] } ∧
    countLid [(1, [("x", Value.num 0)])] 2 = 0 :=
  C5_unsubscribe_exact_idempotent_final envNil storeNested 3
    (fun _ _ => List.not_mem_nil _)

/-- Claim C6: `destroy()` removes all listeners and resets the state to
a freshly allocated empty mapping: `getState` then returns the empty
mapping, no listener is live, previously subscribed listeners receive no
further notifications (unless re-subscribed by the environment), a
subsequent `setState` still succeeds and re-populates the state by
merging onto the empty mapping, and `subscribe` still succeeds. -/
theorem C6_destroy_resets (env : Env) (σ : Store) (d : StateMap) (fuel lid : Nat)
    (henv : noSubOf lid env) (hfuel : σ.entries.length + 2 ≤ fuel) :
    getState (destroy σ) = Except.ok ⟨σ.nextRef, []⟩ ∧
    activeIds (destroy σ).entries = [] ∧
    (∀ fuel' p, resNoLid lid (destroy σ) (setState env fuel' (destroy σ) p)) ∧
    setState env fuel (destroy σ) (PartialState.obj d)
      = Res.ok (alloc (destroy σ) (objAssign [] d)) ∧
    ∀ k, some k ∈ (subscribe (destroy σ) k).entries := by
  refine ⟨rfl, by simp [destroy, alloc, activeIds], ?_, ?_, fun k => subscribe_mem _ k⟩
  · intro fuel' p
    exact noLid_run env lid henv fuel' (destroy σ) (Task.setS p)
      (noLid_destroy σ lid) trivial
  · obtain ⟨f, rfl⟩ : ∃ f, fuel = f + 1 := ⟨fuel - 1, by omega⟩
    rw [setState, exec_set_step]
    have hst : (destroy σ).state? = some ⟨σ.nextRef, []⟩ := rfl
    rw [hst]
    dsimp only [resolveDelta]
    exact notify_tombstones env f (alloc (destroy σ) (objAssign [] d)) 0
      (by simp [destroy, alloc]) (by simp [destroy, alloc]; omega) (by omega)

/-- Witness for C6 at a concrete environment and store. -/
theorem C6_destroy_resets_witness :
    getState (destroy storeNested) = Except.ok ⟨1, []⟩ ∧
    activeIds (destroy storeNested).entries = [] ∧
    (∀ fuel' p, resNoLid 2 (destroy storeNested)
        (setState envNil fuel' (destroy storeNested) p)) ∧
    setState envNil 4 (destroy storeNested) (PartialState.obj [("y", Value.num 1)])
      = Res.ok (alloc (destroy storeNested) (objAssign [] [("y", Value.num 1)])) ∧
    ∀ k, some k ∈ (subscribe (destroy storeNested) k).entries :=
  C6_destroy_resets envNil storeNested [("y", Value.num 1)] 4 2
    (fun _ _ => List.not_mem_nil _) (by decide)

/-- `storeStep` is reflexive. -/
theorem storeStep_refl (σ : Store) : storeStep σ σ :=
  ⟨⟨[], by simp⟩, le_refl _, id, fun _ _ hst st h => hst st h⟩

/-- `storeStep` composes. -/
theorem storeStep_trans {σ1 σ2 σ3 : Store} (h12 : storeStep σ1 σ2)
    (h23 : storeStep σ2 σ3) : storeStep σ1 σ3 := by
  obtain ⟨⟨Δ1, hh1⟩, hn1, hs1, hB1⟩ := h12
  obtain ⟨⟨Δ2, hh2⟩, hn2, hs2, hB2⟩ := h23
  refine ⟨⟨Δ1 ++ Δ2, by rw [hh2, hh1, List.append_assoc]⟩, le_trans hn1 hn2,
    fun h => hs2 (hs1 h), ?_⟩
  intro B hB hst st h
  exact hB2 B (le_trans hB hn1) (hB1 B hB hst) st h

/-- A store differing only in registry or log takes a `storeStep`. -/
theorem storeStep_of_same {σ σ' : Store} (hh : σ'.heap = σ.heap)
    (hn : σ'.nextRef = σ.nextRef) (hs : σ'.state? = σ.state?) : storeStep σ σ' := by
  refine ⟨⟨[], by simp [hh]⟩, le_of_eq hn.symm, by simp [hs], ?_⟩
  intro B hB hst st h
  rw [hs] at h
  exact hst st h

/-- Allocation takes a `storeStep`. -/
theorem storeStep_alloc (σ : Store) (v : StateMap) : storeStep σ (alloc σ v) := by
  refine ⟨⟨[(σ.nextRef, v)], rfl⟩, by simp [alloc], by simp [alloc], ?_⟩
  intro B hB _ st h
  simp only [alloc] at h
  cases h
  exact hB

/-- Chaining a pure `storeStep` before a fueled outcome. -/
theorem resStep_trans {σ σ1 : Store} {r : Res} (h1 : storeStep σ σ1)
    (h2 : resStep σ1 r) : resStep σ r := by
  cases r with
  | ok σ2 => exact storeStep_trans h1 h2
  | err e σ2 => exact storeStep_trans h1 h2
  | out => trivial

/-- Every run only extends the heap, never lowers the allocation
counter, keeps an initialized state initialized, and keeps every lower
bound below the counter on the current state object's reference. -/
theorem exec_step (env : Env) : ∀ fuel σ t, resStep σ (exec env fuel σ t) := by
  intro fuel
  induction fuel with
  | zero => intro σ t; rw [exec_zero]; trivial
  | succ fuel ih =>
    intro σ t
    cases t with
    | setS p =>
      rw [exec_set_step]
      cases hst : σ.state? with
      | none => exact storeStep_refl σ
      | some st =>
        dsimp only
        cases hd : resolveDelta p st.val with
        | none => exact storeStep_refl σ
        | some d =>
          dsimp only
          exact resStep_trans (storeStep_alloc σ _)
            (ih (alloc σ (objAssign st.val d)) (Task.notifyT 0))
    | notifyT i =>
      rw [exec_notify_step]
      cases hi : σ.entries[i]? with
      | none => exact storeStep_refl σ
      | some e =>
        cases e with
        | none => exact ih σ (Task.notifyT (i + 1))
        | some l =>
          dsimp only
          have hinv := ih σ (Task.invokeT l)
          cases hr : exec env fuel σ (Task.invokeT l) with
          | ok σ1 =>
            rw [hr] at hinv
            exact resStep_trans hinv (ih σ1 (Task.notifyT (i + 1)))
          | err e σ1 =>
            rw [hr] at hinv
            exact hinv
          | out => trivial
    | invokeT l =>
      rw [exec_invoke_step]
      cases hst : σ.state? with
      | none => exact storeStep_refl σ
      | some st =>
        dsimp only
        exact resStep_trans
          (@storeStep_of_same σ
            { σ with state? := some st, log := σ.log ++ [(l, st.val)] }
            rfl rfl hst.symm)
          (ih { σ with state? := some st, log := σ.log ++ [(l, st.val)] }
            (Task.cmds (env l st.val)))
    | cmds cs =>
      cases cs with
      | nil => exact storeStep_refl σ
      | cons c cs =>
        rw [exec_cmds_cons]
        cases c with
        | set p =>
          dsimp only
          have hset := ih σ (Task.setS p)
          cases hr : exec env fuel σ (Task.setS p) with
          | ok σ1 =>
            rw [hr] at hset
            dsimp only
            exact resStep_trans hset (ih σ1 (Task.cmds cs))
          | err e σ1 =>
            rw [hr] at hset
            exact hset
          | out => trivial
        | sub k =>
          dsimp only
          refine resStep_trans (storeStep_of_same ?_ ?_ ?_) (ih _ _) <;>
            by_cases hm : some k ∈ σ.entries <;> simp [subscribe, hm]
        | unsub k =>
          dsimp only
          exact resStep_trans (storeStep_of_same rfl rfl rfl) (ih _ _)
        | destroyS =>
          dsimp only
          refine resStep_trans
            (storeStep_trans
              (@storeStep_of_same σ
                { σ with entries := σ.entries.map (fun _ => none) } rfl rfl rfl)
              (storeStep_alloc _ []))
            (ih _ _)

/-- A heap binding survives heap extension (lookup finds the first,
original binding). -/
theorem heapLookup_append (h rest : List (Nat × StateMap)) (r : Nat) (v : StateMap)
    (hv : heapLookup h r = some v) : heapLookup (h ++ rest) r = some v := by
  unfold heapLookup at hv ⊢
  rw [List.find?_append]
  cases hf : h.find? (fun p => p.1 == r) with
  | none => rw [hf] at hv; simp at hv
  | some pr =>
    rw [hf] at hv
    simpa using hv

/-- Claim C7: `setState` never mutates the previous state object in
place: it allocates a fresh merged mapping (the heap is only extended,
every holder of a reference to a previous state object still resolves it
to the unchanged contents) and repoints the store at an object whose
reference differs from the previous state's. -/
theorem C7_fresh_reference_no_mutation (env : Env) (fuel : Nat) (σ σ' : Store)
    (st : StObj) (p : PartialState)
    (hst : σ.state? = some st) (hwf : st.ref < σ.nextRef)
    (hrun : setState env fuel σ p = Res.ok σ') :
    ∃ st' Δ, σ'.state? = some st' ∧ st'.ref ≠ st.ref ∧ σ.nextRef ≤ st'.ref ∧
      σ'.heap = σ.heap ++ Δ ∧
      ∀ r v, heapLookup σ.heap r = some v → heapLookup σ'.heap r = some v := by
  cases fuel with
  | zero => rw [setState, exec_zero] at hrun; exact absurd hrun (by simp)
  | succ f =>
    rw [setState, exec_set_step, hst] at hrun
    dsimp only at hrun
    cases hd : resolveDelta p st.val with
    | none =>
      rw [hd] at hrun
      exact absurd hrun (by simp)
    | some d =>
      rw [hd] at hrun
      dsimp only at hrun
      have hstep := exec_step env f (alloc σ (objAssign st.val d)) (Task.notifyT 0)
      rw [hrun] at hstep
      obtain ⟨⟨Δ, hheap⟩, _, hsome, hB⟩ := hstep
      obtain ⟨st', hst'⟩ := Option.isSome_iff_exists.mp (hsome (by simp [alloc]))
      have href : σ.nextRef ≤ st'.ref := by
        refine hB σ.nextRef (by simp [alloc]) ?_ st' hst'
        intro st1 h1
        simp only [alloc, Option.some_inj] at h1
        cases h1
        exact le_refl _
      refine ⟨st', (σ.nextRef, objAssign st.val d) :: Δ, hst',
        by omega, href, ?_, ?_⟩
      · rw [hheap]
        simp [alloc]
      · intro r v hv
        rw [hheap]
        have : (alloc σ (objAssign st.val d)).heap
            = σ.heap ++ [(σ.nextRef, objAssign st.val d)] := rfl
        rw [this, List.append_assoc]
        exact heapLookup_append _ _ r v hv

/-- Witness for C7 at a concrete run with a re-entrant listener. -/
theorem C7_fresh_reference_no_mutation_witness :
    ∃ st' Δ,
      (Store.state?
        { state? := some ⟨2, [("flag", Value.num 1)]⟩, nextRef := 3,
          heap := [(0, []), (1, [("flag", Value.num 0)]), (2, [("flag", Value.num 1)])],
          entries := [some 1, some 2],
          log := [(1, [("flag", Value.num 0)]), (1, [("flag", Value.num 1)]),
                  (2, [("flag", Value.num 1)]), (2, [("flag", Value.num 1)])] })
        = some st' ∧
      st'.ref ≠ (StObj.mk 0 []).ref ∧ storeNested.nextRef ≤ st'.ref ∧
      (Store.heap
        { state? := some ⟨2, [("flag", Value.num 1)]⟩, nextRef := 3,
          heap := [(0, []), (1, [("flag", Value.num 0)]), (2, [("flag", Value.num 1)])],
          entries := [some 1, some 2],
          log := [(1, [("flag", Value.num 0)]), (1, [("flag", Value.num 1)]),
                  (2, [("flag", Value.num 1)]), (2, [("flag", Value.num 1)])] })
        = storeNested.heap ++ Δ ∧
      ∀ r v, heapLookup storeNested.heap r = some v →
        heapLookup
          (Store.heap
            { state? := some ⟨2, [("flag", Value.num 1)]⟩, nextRef := 3,
              heap := [(0, []), (1, [("flag", Value.num 0)]),
                       (2, [("flag", Value.num 1)])],
              entries := [some 1, some 2],
              log := [(1, [("flag", Value.num 0)]), (1, [("flag", Value.num 1)]),
                      (2, [("flag", Value.num 1)]), (2, [("flag", Value.num 1)])] })
          r = some v :=
  C7_fresh_reference_no_mutation envNested 30 storeNested _ ⟨0, []⟩
    (PartialState.obj [("flag", Value.num 0)]) rfl (by decide) (by decide)

/-- A run in a throw-free environment starting from an initialized state
never raises an exception and keeps the state initialized. -/
theorem exec_no_throw (env : Env) (henv : SafeEnv env) :
    ∀ fuel σ t, σ.state?.isSome → taskSafe t →
      (∀ e σ', exec env fuel σ t ≠ Res.err e σ') ∧
      (∀ σ', exec env fuel σ t = Res.ok σ' → σ'.state?.isSome) := by
  intro fuel
  induction fuel with
  | zero =>
    intro σ t _ _
    rw [exec_zero]
    exact ⟨fun _ _ h => Res.noConfusion h, fun _ h => absurd h (by simp)⟩
  | succ fuel ih =>
    intro σ t hσ ht
    cases t with
    | setS p =>
      obtain ⟨st, hst⟩ := Option.isSome_iff_exists.mp hσ
      have hd : (resolveDelta p st.val).isSome := by
        cases p with
        | obj d => simp [resolveDelta]
        | fn f => exact ht st.val
      obtain ⟨d, hd⟩ := Option.isSome_iff_exists.mp hd
      rw [exec_set_step, hst]
      dsimp only
      rw [hd]
      dsimp only
      exact ih (alloc σ (objAssign st.val d)) (Task.notifyT 0) (by simp [alloc]) trivial
    | notifyT i =>
      rw [exec_notify_step]
      cases hi : σ.entries[i]? with
      | none => exact ⟨fun _ _ h => Res.noConfusion h, fun σ' h => by cases h; exact hσ⟩
      | some e =>
        cases e with
        | none => exact ih σ (Task.notifyT (i + 1)) hσ trivial
        | some l =>
          dsimp only
          have hinv := ih σ (Task.invokeT l) hσ trivial
          cases hr : exec env fuel σ (Task.invokeT l) with
          | ok σ1 =>
            exact ih σ1 (Task.notifyT (i + 1)) (hinv.2 σ1 hr) trivial
          | err e σ1 => exact absurd hr (hinv.1 e σ1)
          | out => exact ⟨fun _ _ h => Res.noConfusion h, fun _ h => absurd h (by simp)⟩
    | invokeT l =>
      obtain ⟨st, hst⟩ := Option.isSome_iff_exists.mp hσ
      rw [exec_invoke_step, hst]
      dsimp only
      exact ih { σ with state? := some st, log := σ.log ++ [(l, st.val)] }
        (Task.cmds (env l st.val)) (by simp) (fun c hc => henv l st.val c hc)
    | cmds cs =>
      cases cs with
      | nil =>
        rw [exec_cmds_nil]
        exact ⟨fun _ _ h => Res.noConfusion h, fun σ' h => by cases h; exact hσ⟩
      | cons c cs =>
        have hc : SafeCmd c := ht c (List.mem_cons_self c cs)
        have hcs : ∀ c' ∈ cs, SafeCmd c' := fun c' h => ht c' (List.mem_cons_of_mem c h)
        rw [exec_cmds_cons]
        cases c with
        | set p =>
          dsimp only
          have hset := ih σ (Task.setS p) hσ hc
          cases hr : exec env fuel σ (Task.setS p) with
          | ok σ1 => exact ih σ1 (Task.cmds cs) (hset.2 σ1 hr) hcs
          | err e σ1 => exact absurd hr (hset.1 e σ1)
          | out => exact ⟨fun _ _ h => Res.noConfusion h, fun _ h => absurd h (by simp)⟩
        | sub k =>
          dsimp only
          refine ih (subscribe σ k) (Task.cmds cs) ?_ hcs
          by_cases hm : some k ∈ σ.entries <;> simpa [subscribe, hm] using hσ
        | unsub k =>
          dsimp only
          exact ih (unsubscribe σ k) (Task.cmds cs) (by simpa [unsubscribe] using hσ) hcs
        | destroyS =>
          dsimp only
          exact ih (destroy σ) (Task.cmds cs) (by simp [destroy, alloc]) hcs

/-- `subscribe` of anyone preserves the unique slot of a registered
listener. -/
theorem uniqueAt_subscribe {σ : Store} {j lid : Nat} (k : Nat)
    (h : uniqueAt σ.entries j lid) : uniqueAt (subscribe σ k).entries j lid := by
  by_cases hm : some k ∈ σ.entries
  · simpa [subscribe, hm] using h
  · obtain ⟨h1, h2⟩ := h
    have hk : k ≠ lid := by
      intro hkl
      exact hm (hkl ▸ List.getElem?_mem h1)
    have hjlt : j < σ.entries.length := (List.getElem?_eq_some_iff.mp h1).1
    have hent : (subscribe σ k).entries = σ.entries ++ [some k] := by
      simp [subscribe, hm]
    rw [hent]
    constructor
    · rw [List.getElem?_append_left hjlt]
      exact h1
    · intro k' hk'len hk'
      by_cases hlt : k' < σ.entries.length
      · rw [List.getElem?_append_left hlt]
        exact h2 k' hlt hk'
      · have hkeq : k' = σ.entries.length := by
          simp at hk'len
          omega
        subst hkeq
        rw [List.getElem?_concat_length]
        intro hcon
        exact hk (by simpa using hcon)

/-- `unsubscribe` of a different listener preserves the unique slot of a
registered listener. -/
theorem uniqueAt_unsubscribe {σ : Store} {j lid : Nat} (k : Nat) (hk : k ≠ lid)
    (h : uniqueAt σ.entries j lid) : uniqueAt (unsubscribe σ k).entries j lid := by
  obtain ⟨h1, h2⟩ := h
  have hmap : ∀ i : Nat, (unsubscribe σ k).entries[i]?
      = (σ.entries[i]?).map (fun e => if e = some k then none else e) := by
    intro i
    simp [unsubscribe]
  constructor
  · rw [hmap j, h1]
    simp
    intro hcon
    exact hk (by simpa using hcon.symm)
  · intro k' hk'len hk'
    rw [hmap k']
    intro hcon
    obtain ⟨e, he, hfe⟩ := Option.map_eq_some'.mp hcon
    by_cases hc : e = some k <;> simp [hc] at hfe
    · exact h2 k' (by simpa [unsubscribe] using hk'len) hk' (hfe ▸ he)

/-- In an environment whose bodies only edit the registry and leave
listener `lid` alone, a completed run satisfies: a finished body changed
neither log nor state and kept `lid`'s unique slot; an invocation adds
one log record counting toward `lid` exactly when `lid` was the
listener invoked, keeping its unique slot; and a completed `forEach`
walk from index `i` invokes `lid` exactly once when its slot `j` is
still to come (`i ≤ j`) and never when already passed. -/
theorem reg_pass_count (env : Env) (lid : Nat) (henv : RegEnvFor lid env) :
    ∀ fuel,
      (∀ σ cs σ', (∀ c ∈ cs, RegCmdFor lid c) →
        exec env fuel σ (Task.cmds cs) = Res.ok σ' →
        σ'.log = σ.log ∧ σ'.state? = σ.state? ∧
        ∀ j, uniqueAt σ.entries j lid → uniqueAt σ'.entries j lid) ∧
      (∀ σ l σ', exec env fuel σ (Task.invokeT l) = Res.ok σ' →
        countLid σ'.log lid = countLid σ.log lid + (if l = lid then 1 else 0) ∧
        ∀ j, uniqueAt σ.entries j lid → uniqueAt σ'.entries j lid) ∧
      (∀ σ i j σ', uniqueAt σ.entries j lid →
        exec env fuel σ (Task.notifyT i) = Res.ok σ' →
        countLid σ'.log lid = countLid σ.log lid + (if i ≤ j then 1 else 0)) := by
  intro fuel
  induction fuel with
  | zero =>
    refine ⟨?_, ?_, ?_⟩ <;> intro σ
    · intro cs σ' _ hrun
      rw [exec_zero] at hrun
      exact absurd hrun (by simp)
    · intro l σ' hrun
      rw [exec_zero] at hrun
      exact absurd hrun (by simp)
    · intro i j σ' _ hrun
      rw [exec_zero] at hrun
      exact absurd hrun (by simp)
  | succ fuel ih =>
    obtain ⟨ihA, ihB, ihC⟩ := ih
    refine ⟨?_, ?_, ?_⟩
    · intro σ cs σ' hcs hrun
      cases cs with
      | nil =>
        rw [exec_cmds_nil] at hrun
        cases hrun
        exact ⟨rfl, rfl, fun _ h => h⟩
      | cons c cs =>
        have hc := hcs c (List.mem_cons_self c cs)
        have hcs' : ∀ c' ∈ cs, RegCmdFor lid c' :=
          fun c' h => hcs c' (List.mem_cons_of_mem c h)
        rw [exec_cmds_cons] at hrun
        cases c with
        | set p => exact absurd hc (by simp [RegCmdFor])
        | destroyS => exact absurd hc (by simp [RegCmdFor])
        | sub k =>
          dsimp only at hrun
          have hA := ihA (subscribe σ k) cs σ' hcs' hrun
          have hlog : (subscribe σ k).log = σ.log := by
            by_cases hm : some k ∈ σ.entries <;> simp [subscribe, hm]
          have hstq : (subscribe σ k).state? = σ.state? := by
            by_cases hm : some k ∈ σ.entries <;> simp [subscribe, hm]
          exact ⟨hA.1.trans hlog, hA.2.1.trans hstq,
            fun j hj => hA.2.2 j (uniqueAt_subscribe k hj)⟩
        | unsub k =>
          have hk : k ≠ lid := hc
          dsimp only at hrun
          have hA := ihA (unsubscribe σ k) cs σ' hcs' hrun
          exact ⟨hA.1, hA.2.1, fun j hj => hA.2.2 j (uniqueAt_unsubscribe k hk hj)⟩
    · intro σ l σ' hrun
      rw [exec_invoke_step] at hrun
      cases hst : σ.state? with
      | none =>
        rw [hst] at hrun
        exact absurd hrun (by simp)
      | some st =>
        rw [hst] at hrun
        dsimp only at hrun
        have hA := ihA _ (env l st.val) σ' (fun c hc => henv l st.val c hc) hrun
        constructor
        · rw [hA.1]
          simp only [countLid, List.countP_append]
          by_cases hl : l = lid <;> simp [hl]
        · intro j hj
          exact hA.2.2 j (by simpa using hj)
    · intro σ i j σ' hj hrun
      rw [exec_notify_step] at hrun
      cases hi : σ.entries[i]? with
      | none =>
        rw [hi] at hrun
        cases hrun
        have hjlt : j < σ.entries.length := (List.getElem?_eq_some_iff.mp hj.1).1
        have hilen : σ.entries.length ≤ i := List.getElem?_eq_none_iff.mp hi
        have : ¬ i ≤ j := by omega
        simp [this]
      | some e =>
        rw [hi] at hrun
        cases e with
        | none =>
          dsimp only at hrun
          have hne : i ≠ j := by
            intro heq
            rw [heq, hj.1] at hi
            exact Option.noConfusion hi (fun h => Option.noConfusion h)
          rw [ihC σ (i + 1) j σ' hj hrun]
          congr 1
          by_cases hile : i ≤ j
          · rw [if_pos hile, if_pos (by omega)]
          · rw [if_neg hile, if_neg (by omega)]
        | some l =>
          dsimp only at hrun
          cases hr : exec env fuel σ (Task.invokeT l) with
          | ok σ1 =>
            rw [hr] at hrun
            dsimp only at hrun
            have hB := ihB σ l σ1 hr
            have hj1 : uniqueAt σ1.entries j lid := hB.2 j hj
            have hC := ihC σ1 (i + 1) j σ' hj1 hrun
            by_cases hij : i = j
            · subst hij
              have hl : l = lid := by
                rw [hj.1] at hi
                simpa using hi.symm
              rw [hC, hB.1, hl]
              simp
            · have hilt : i < σ.entries.length := by
                by_contra hge
                rw [List.getElem?_eq_none (by omega)] at hi
                exact Option.noConfusion hi
              have hl : l ≠ lid := by
                intro heq
                exact hj.2 i hilt hij (heq ▸ hi)
              rw [hC, hB.1]
              rw [if_neg hl]
              by_cases hile : i ≤ j
              · rw [if_pos hile, if_pos (by omega)]
              · rw [if_neg hile, if_neg (by omega)]
          | err e1 σ1 =>
            rw [hr] at hrun
            exact absurd hrun (by simp)
          | out =>
            rw [hr] at hrun
            exact absurd hrun (by simp)

/-- Claim C4 (amended): a notification pass tolerates re-entrant
structural modification of the registry: it never throws (in a
throw-free environment with initialized state); a listener holding a
unique registry slot, in an environment whose re-entrant commands only
edit the registry and leave that listener alone, is invoked exactly once
per completed `setState` call — mid-pass additions and removals of other
listeners do not make it skipped or double-invoked; and iteration is
live rather than snapshot-based: a listener subscribed mid-pass is
appended and invoked later within the same pass (`runAddMid`). -/
theorem C4_amended_live_iteration_safe (env : Env) (lid : Nat)
    (henvS : SafeEnv env) (henvR : RegEnvFor lid env) :
    (∀ fuel σ p e σ'', σ.state?.isSome → SafeCmd (Cmd.set p) →
        setState env fuel σ p ≠ Res.err e σ'') ∧
    (∀ fuel σ st p j σ', σ.state? = some st → uniqueAt σ.entries j lid →
        setState env fuel σ p = Res.ok σ' →
        countLid σ'.log lid = countLid σ.log lid + 1) ∧
    runAddMid = Res.ok
      { state? := some ⟨1, [("x", Value.num 0)]⟩, nextRef := 2,
        heap := [(0, []), (1, [("x", Value.num 0)])],
        entries := [some 1, some 3],
        log := [(1, [("x", Value.num 0)]), (3, [("x", Value.num 0)])] } ∧
    countLid [(1, [("x", Value.num 0)]), (3, [("x", Value.num 0)])] 3 = 1 := by
  refine ⟨?_, ?_, by decide, by decide⟩
  · intro fuel σ p e σ'' hσ hp
    exact (exec_no_throw env henvS fuel σ (Task.setS p) hσ hp).1 e σ''
  · intro fuel σ st p j σ' hst hj hrun
    cases fuel with
    | zero =>
      rw [setState, exec_zero] at hrun
      exact absurd hrun (by simp)
    | succ f =>
      rw [setState, exec_set_step, hst] at hrun
      dsimp only at hrun
      cases hd : resolveDelta p st.val with
      | none =>
        rw [hd] at hrun
        exact absurd hrun (by simp)
      | some d =>
        rw [hd] at hrun
        dsimp only at hrun
        have hC := (reg_pass_count env lid henvR f).2.2
          (alloc σ (objAssign st.val d)) 0 j σ' (by simpa [alloc] using hj) hrun
        rw [hC]
        simp [alloc]

/-- Witness for the amended C4: the remove/re-add environment leaves
listener 1 alone, so listener 1 is invoked exactly once by the
`runReAdd` call even while listener 2 is removed and re-added mid-pass;
typed out at concrete inputs. -/
theorem C4_amended_live_iteration_safe_witness :
    (∀ fuel σ p e σ'', σ.state?.isSome → SafeCmd (Cmd.set p) →
        setState envReAdd fuel σ p ≠ Res.err e σ'') ∧
    (∀ fuel σ st p j σ', σ.state? = some st → uniqueAt σ.entries j 1 →
        setState envReAdd fuel σ p = Res.ok σ' →
        countLid σ'.log 1 = countLid σ.log 1 + 1) ∧
    runAddMid = Res.ok
      { state? := some ⟨1, [("x", Value.num 0)]⟩, nextRef := 2,
        heap := [(0, []), (1, [("x", Value.num 0)])],
        entries := [some 1, some 3],
        log := [(1, [("x", Value.num 0)]), (3, [("x", Value.num 0)])] } ∧
    countLid [(1, [("x", Value.num 0)]), (3, [("x", Value.num 0)])] 3 = 1 :=
  C4_amended_live_iteration_safe envReAdd 1
    (fun l s c hc => by
      by_cases hl : l == 1
      · simp [envReAdd, hl] at hc
        rcases hc with rfl | rfl <;> trivial
      · simp [envReAdd, hl] at hc)
    (fun l s c hc => by
      by_cases hl : l == 1
      · simp [envReAdd, hl] at hc
        rcases hc with rfl | rfl
        · exact (by omega : (2 : Nat) ≠ 1)
        · trivial
      · simp [envReAdd, hl] at hc)

/-- Claim C9: `setState` is atomic with respect to a throwing updater:
when the function partial throws on the current state, the exception
propagates to the caller (`userError`) and the store is returned exactly
as it was — same state reference, no allocation, no listener invoked. -/
theorem C9_throwing_updater_atomic (env : Env) (fuel : Nat) (σ : Store)
    (st : StObj) (f : StateMap → Option StateMap)
    (hst : σ.state? = some st) (hf : f st.val = none) :
    setState env (fuel + 1) σ (PartialState.fn f) = Res.err JsError.userError σ := by
  simp [setState, exec, hst, resolveDelta, hf]

/-- Witness for C9 at a concrete store and updater. -/
theorem C9_throwing_updater_atomic_witness :
    setState envNil 6 (createRun [("a", Value.num 0)]) (PartialState.fn (fun _ => none))
      = Res.err JsError.userError (createRun [("a", Value.num 0)]) :=
  C9_throwing_updater_atomic envNil 5 (createRun [("a", Value.num 0)])
    ⟨0, [("a", Value.num 0)]⟩ (fun _ => none) rfl rfl

/-- Claim C10: during the initializer's own synchronous execution the
`let state` variable is still uninitialized, so `getState` throws a
reference error and so does `setState` (which reads `state`); after
`create` returns with initializer result `m`, `getState` observes `m`
and `setState` succeeds. -/
theorem C10_capabilities_dead_during_initializer (m d : StateMap) (env : Env)
    (fuel : Nat) (p : PartialState) :
    getState initStore = Except.error JsError.refError ∧
    setState env (fuel + 1) initStore p = Res.err JsError.refError initStore ∧
    getState (createRun m) = Except.ok ⟨0, m⟩ ∧
    setState env (fuel + 2) (createRun m) (PartialState.obj d)
      = Res.ok (alloc (createRun m) (objAssign m d)) := by
  refine ⟨rfl, by simp [setState, exec, initStore], rfl, ?_⟩
  simp [setState, exec, createRun, resolveDelta, alloc]

/-- Claim C3: the binding hook's store listener dispatches a re-render
(with the newly selected slice) iff the most recently used selector
applied to the new state is not one-level shallow-equal to the
last-rendered slice; in particular it does not dispatch when the
selector returns a structurally-equal-but-newly-allocated object after
only an unrelated key changed, and does dispatch when the selected value
itself changed. -/
theorem C3_rerender_iff_slice_changed (h : HookInst) (s : StateMap) :
    (hookListener h s = none ↔ shallowEqual h.sliceRef (h.selectRef s) = true) ∧
    (hookListener h s = some (h.selectRef s) ↔
      shallowEqual h.sliceRef (h.selectRef s) = false) ∧
    hookListener
        ⟨countSelector, countSelector [("count", Value.num 0), ("name", Value.str "a")]⟩
        (objAssign [("count", Value.num 0), ("name", Value.str "a")]
          [("name", Value.str "b")])
      = none ∧
    hookListener
        ⟨countSelector, countSelector [("count", Value.num 0), ("name", Value.str "a")]⟩
        (objAssign [("count", Value.num 0), ("name", Value.str "a")]
          [("count", Value.num 1)])
      = some [("count", Value.num 1)] := by
  refine ⟨?_, ?_, by decide, by decide⟩
  · unfold hookListener
    by_cases hEq : shallowEqual h.sliceRef (h.selectRef s) <;> simp [hEq]
  · unfold hookListener
    by_cases hEq : shallowEqual h.sliceRef (h.selectRef s) <;> simp [hEq]

/-- Counterexample to claim C2 as stated: in `runNested`, listener 2 is
subscribed (and never unsubscribed) when the outer
`setState({flag: 0})` begins; the state resulting from that triggering
call is `{flag: 0}` (second conjunct), yet the invocation of listener 2
performed by the outer call's own notification pass — the final log
entry — observes `{flag: 1}`, the state produced by listener 1's nested
`setState`, which differs from the triggering call's result (third
conjunct). -/
theorem C2_nested_observes_future_state_cx :
    runNested = Res.ok
      { state? := some ⟨2, [("flag", Value.num 1)]⟩, nextRef := 3,
        heap := [(0, []), (1, [("flag", Value.num 0)]), (2, [("flag", Value.num 1)])],
        entries := [some 1, some 2],
        log := [(1, [("flag", Value.num 0)]), (1, [("flag", Value.num 1)]),
                (2, [("flag", Value.num 1)]), (2, [("flag", Value.num 1)])] } ∧
    objAssign [] [("flag", Value.num 0)] = [("flag", Value.num 0)] ∧
    ([("flag", Value.num 1)] : StateMap) ≠ [("flag", Value.num 0)] :=
  ⟨by decide, by decide, by decide⟩

/-- Counterexample to claim C4 as stated: in `runReAdd`, listener 2 is
removed and re-added mid-notification (by listener 1, after listener 2's
turn), and the single notification pass of one `setState` call invokes
listener 2 twice — the live ECMA `Set` iteration visits the re-added
entry, unlike iteration over a stable snapshot, so such a listener IS
double-invoked within the pass. -/
theorem C4_readd_double_invocation_cx :
    runReAdd = Res.ok
      { state? := some ⟨1, [("x", Value.num 0)]⟩, nextRef := 2,
        heap := [(0, []), (1, [("x", Value.num 0)])],
        entries := [none, some 1, some 2],
        log := [(2, [("x", Value.num 0)]), (1, [("x", Value.num 0)]),
                (2, [("x", Value.num 0)])] } ∧
    countLid [(2, [("x", Value.num 0)]), (1, [("x", Value.num 0)]),
        (2, [("x", Value.num 0)])] 2 = 2 :=
  ⟨by decide, by decide⟩

end Zustand
